import Mathlib

/-!
Shallow embedding of the heartbeat-scheduling worker and the audio send
path of the snakecord repository, together with theorems settling the
spec claims about them.

The embedding follows the Python source:
  * `snakecord/connections/base.py`   — `BaseConnection` state, `calcbeat`,
    `send_heartbeat`;
  * `snakecord/connections/worker.py` — `ConnectionWorker.run`'s per-cycle
    deadline computation, the notification-socket drain, and the firing of
    write-ready connections;
  * `snakecord/connections/shard.py`  — `Shard.ws_text_received` opcode
    dispatch;
  * `snakecord/manager.py`            — `BaseManager.create_connection`;
  * `snakecord/audio/send.py`         — `AudioPlayer` header building,
    encryption, counter increments and pacing arithmetic.

Python floats used as monotonic-clock readings and intervals are modelled
as extended rationals (`ExtQ`): the code initialises the interval and the
two timestamps to `float('inf')` and compares against it, and all values
actually produced are finite or `+inf`.
-/

namespace Snakecord

/-- Extended rationals: either `+inf` (Python `float('inf')`) or a finite
rational. The only operations the source performs on these values are
addition, subtraction of a finite clock reading, absolute value and
comparisons, so only those are modelled. -/
inductive ExtQ where
  | inf : ExtQ
  | fin : ℚ → ExtQ
deriving DecidableEq

namespace ExtQ

/-- `x + y` with `inf + y = inf` (as for IEEE `+inf` against finite values). -/
def add : ExtQ → ExtQ → ExtQ
  | inf, _ => inf
  | fin _, inf => inf
  | fin a, fin b => fin (a + b)

/-- `x - q` for a finite subtrahend `q` (the clock reading is always finite). -/
def sub : ExtQ → ℚ → ExtQ
  | inf, _ => inf
  | fin a, q => fin (a - q)

/-- `x <= y` as Python's float comparison on our value range. -/
def le : ExtQ → ExtQ → Bool
  | inf, inf => true
  | inf, fin _ => false
  | fin _, inf => true
  | fin a, fin b => a ≤ b

/-- `x < y` as Python's float comparison on our value range. -/
def lt : ExtQ → ExtQ → Bool
  | inf, _ => false
  | fin _, inf => true
  | fin a, fin b => a < b

/-- `abs(x)`; `abs(inf) = inf`. -/
def habs : ExtQ → ExtQ
  | inf => inf
  | fin a => fin |a|

end ExtQ

/-- The heartbeat-relevant state of `BaseConnection`
(`snakecord/connections/base.py`, `__init__`): counters start at `0`, the
interval and both timestamps start at `float('inf')`. -/
structure Conn where
  heartbeats_sent : ℕ
  heartbeats_acked : ℕ
  heartbeat_interval : ExtQ
  heartbeat_last_sent : ExtQ
  heartbeat_last_acked : ExtQ
deriving DecidableEq

/-- The state of a freshly constructed connection (`BaseConnection.__init__`). -/
def newConn : Conn :=
  { heartbeats_sent := 0
    heartbeats_acked := 0
    heartbeat_interval := ExtQ.inf
    heartbeat_last_sent := ExtQ.inf
    heartbeat_last_acked := ExtQ.inf }

/-- `BaseConnection.calcbeat` (base.py lines 40–52): `None` when the interval
is unknown or an ack is outstanding, `0` before the first heartbeat, otherwise
`last_acked + interval - now` where `now` is `time.perf_counter()`. -/
def calcbeat (c : Conn) (now : ℚ) : Option ExtQ :=
  if c.heartbeat_interval = ExtQ.inf then none
  else if c.heartbeats_sent ≠ c.heartbeats_acked then none
  else if c.heartbeats_sent = 0 then some (ExtQ.fin 0)
  else some ((c.heartbeat_last_acked.add c.heartbeat_interval).sub now)

/-- `BaseConnection.send_heartbeat` (base.py lines 54–57): writes the payload
(out of scope), increments `heartbeats_sent`, records the send time. -/
def send_heartbeat (c : Conn) (now : ℚ) : Conn :=
  { c with heartbeats_sent := c.heartbeats_sent + 1
           heartbeat_last_sent := ExtQ.fin now }

/-- The timeout update of `ConnectionWorker.run` (worker.py lines 51–52):
`if timeout is None or next_beat < timeout: timeout = abs(next_beat)`.
Note that the signed `next_beat` is compared with the previously stored
absolute value, exactly as in the source. -/
def timeoutStep (acc : Option ExtQ) (nb : ExtQ) : Option ExtQ :=
  match acc with
  | none => some nb.habs
  | some t => if nb.lt t then some nb.habs else some t

/-- One iteration of the registry fold in `ConnectionWorker.run`
(worker.py lines 43–52): skip connections whose `calcbeat()` is `None`;
append a connection with `next_beat <= 0` to `wlist`; update the timeout
with `timeoutStep`. -/
def cycleStep (now : ℚ) (acc : List ℕ × Option ExtQ) (p : ℕ × Conn) :
    List ℕ × Option ExtQ :=
  match calcbeat p.2 now with
  | none => acc
  | some nb =>
    let wlist := if nb.le (ExtQ.fin 0) then acc.1 ++ [p.1] else acc.1
    (wlist, timeoutStep acc.2 nb)

/-- The per-cycle deadline computation of `ConnectionWorker.run`
(worker.py lines 39–52): starting from `timeout = None`, `wlist = []`, fold
`cycleStep` over the registry in iteration order. Returns the write set
handed to `select` and the timeout of the blocking call (`none` = block
without timeout). -/
def computeCycle (conns : List (ℕ × Conn)) (now : ℚ) : List ℕ × Option ExtQ :=
  conns.foldl (cycleStep now) ([], none)

/-- Python dict lookup `self.manager.connections[fd]` on the association-list
model of the registry. -/
def findConn (fd : ℕ) (conns : List (ℕ × Conn)) : Option Conn :=
  (conns.find? (fun p => p.1 = fd)).map Prod.snd

/-- The firing loop of `ConnectionWorker.run` (worker.py lines 67–69): for
each descriptor that `select` reported write-ready, look the connection up
and invoke `send_heartbeat` on it. We return the `(fd, connection)` pairs on
which `send_heartbeat` is invoked. -/
def firedPairs (conns : List (ℕ × Conn)) (wready : List ℕ) :
    List (ℕ × Conn) :=
  wready.filterMap (fun fd => (findConn fd conns).map (fun c => (fd, c)))

/-- Minimum-of-absolute-values accumulator, written for the refinement
target of claim C3: it keeps the smaller of the stored value and
`abs(next_beat)`. -/
def specStep (acc : Option ExtQ) (nb : ExtQ) : Option ExtQ :=
  match acc with
  | none => some nb.habs
  | some t => if nb.habs.lt t then some nb.habs else some t

/-- The spec's timeout (`spec.md` §4.1 step 2, written for claim C3 as a
refinement target): the minimum of `|nextBeat|` over all connections whose
`calcbeat` is defined, `none` when no connection has a defined `nextBeat`. -/
def specTimeout (conns : List (ℕ × Conn)) (now : ℚ) : Option ExtQ :=
  (conns.filterMap (fun p => calcbeat p.2 now)).foldl specStep none

/-- The `wlist` built by the per-cycle fold, written directly as a
`filterMap`: the descriptors of the connections whose `calcbeat` is defined
and `≤ 0`. -/
def wlistOf (conns : List (ℕ × Conn)) (now : ℚ) : List ℕ :=
  conns.filterMap (fun p =>
    match calcbeat p.2 now with
    | some nb => if nb.le (ExtQ.fin 0) then some p.1 else none
    | none => none)

/-- `calcbeat p now` for the nonnegativity hypothesis of claim C3's amended
statement: `true` when the connection's next beat is undefined or `≥ 0`. -/
def optNonneg : Option ExtQ → Bool
  | none => true
  | some nb => (ExtQ.fin 0).le nb

/-- `WorkerOpcode` (worker.py lines 13–15). -/
def WorkerOpcode.WAKEUP : ℕ := 0

/-- `WorkerOpcode.SHUTDOWN = 1` (worker.py line 15). -/
def WorkerOpcode.SHUTDOWN : ℕ := 1

/-- The manager-level state the worker interacts with: the connection
registry (`BaseManager.connections`, a dict from file descriptor to
connection) and the bytes that have been written into the worker's
notification socketpair but not yet drained. A blocked `select` call wakes
on the notification descriptor exactly when `pending ≠ []`. -/
structure ManagerState where
  connections : List (ℕ × Conn)
  pending : List ℕ
deriving DecidableEq

/-- `ConnectionWorker.wakeup` (worker.py lines 29–31): sends the single byte
`WAKEUP` through the notification socketpair. -/
def wakeup (s : ManagerState) : ManagerState :=
  { s with pending := s.pending ++ [WorkerOpcode.WAKEUP] }

/-- `ConnectionWorker.shutdown` (worker.py lines 33–35): sends the single
byte `SHUTDOWN` through the notification socketpair. -/
def shutdownOp (s : ManagerState) : ManagerState :=
  { s with pending := s.pending ++ [WorkerOpcode.SHUTDOWN] }

/-- `BaseManager.create_connection` (manager.py lines 99–111): constructs a
fresh connection and stores it in `connections` under its socket's file
descriptor. No byte is written to the worker's notification socketpair. -/
def create_connection (fd : ℕ) (s : ManagerState) : ManagerState :=
  { s with connections := s.connections ++ [(fd, newConn)] }

/-- Python equality between a `bytes` object (here a list of byte values, as
returned by `self._rsock.recv(1)`) and an `int`. In Python `bytes.__eq__`
returns `NotImplemented` for an `int` argument and `int.__eq__` does the
same for `bytes`, so the comparison always evaluates to `False`, whatever
the byte values are. -/
def pyBytesEqInt (_b : List ℕ) (_n : ℕ) : Bool := false

/-- One pass of the drain loop in `ConnectionWorker.run` (worker.py lines
58–65): `opcode = self._rsock.recv(1)` yields a one-byte `bytes` object,
which is compared with the integer enum member `WorkerOpcode.SHUTDOWN`;
if the comparison is true, `shutting_down` is set. -/
def drainStep (shutting : Bool) (b : List ℕ) : Bool :=
  if pyBytesEqInt b WorkerOpcode.SHUTDOWN then true else shutting

/-- The whole drain of the readable notification socket: each pending byte
is received as a one-byte `bytes` object and fed through `drainStep`; the
loop ends with `BlockingIOError` once the socket is empty. Returns the value
of `shutting_down` after the drain. -/
def drain (pending : List ℕ) (shutting : Bool) : Bool :=
  (pending.map (fun b => [b])).foldl drainStep shutting

/-- Inbound gateway messages distinguished by `Shard.ws_text_received`
(shard.py lines 52–72); `hello` carries the `heartbeat_interval` payload
field in milliseconds, `other` stands for any opcode without a branch. -/
inductive ShardMsg where
  | dispatch : ShardMsg
  | hello : ℚ → ShardMsg
  | heartbeat : ShardMsg
  | heartbeat_ack : ShardMsg
  | other : ShardMsg
deriving DecidableEq

/-- `Shard.ws_text_received` (shard.py lines 52–72), restricted to its
effect on the connection state; the returned boolean records whether the
branch awaited `self.manager.connection_worker.wakeup()`. `DISPATCH` hands
the event to the manager, `HELLO` stores `heartbeat_interval / 1000` and
calls `wakeup` (then identifies), `HEARTBEAT` sends a heartbeat
immediately, `HEARTBEAT_ACK` increments `heartbeats_acked`, stamps
`heartbeat_last_acked` and calls `wakeup`. -/
def ws_text_received (c : Conn) (now : ℚ) : ShardMsg → Conn × Bool
  | ShardMsg.dispatch => (c, false)
  | ShardMsg.hello ms =>
      ({ c with heartbeat_interval := ExtQ.fin (ms / 1000) }, true)
  | ShardMsg.heartbeat => (send_heartbeat c now, false)
  | ShardMsg.heartbeat_ack =>
      ({ c with heartbeats_acked := c.heartbeats_acked + 1
                heartbeat_last_acked := ExtQ.fin now }, true)
  | ShardMsg.other => (c, false)

/-- An event that mutates a connection's heartbeat counters: either an
inbound gateway message handled by `ws_text_received`, or the worker firing
`send_heartbeat` on it. Each event carries the `time.perf_counter()` reading
at which it happens. -/
inductive ConnEvent where
  | recv : ℚ → ShardMsg → ConnEvent
  | worker_send : ℚ → ConnEvent
deriving DecidableEq

/-- Apply one event to the connection state. -/
def applyEvent (c : Conn) : ConnEvent → Conn
  | ConnEvent.recv now m => (ws_text_received c now m).1
  | ConnEvent.worker_send now => send_heartbeat c now

/-- Run a sequence of events from a starting state. -/
def runEvents (c : Conn) (evs : List ConnEvent) : Conn :=
  evs.foldl applyEvent c

/-- The counter invariant of `spec.md` §3: `heartbeats_acked ≤ heartbeats_sent`. -/
def counterInv (c : Conn) : Prop :=
  c.heartbeats_acked ≤ c.heartbeats_sent

instance (c : Conn) : Decidable (counterInv c) :=
  inferInstanceAs (Decidable (_ ≤ _))

/-- Environment guard for one event: a `HEARTBEAT_ACK` arrives only while an
ack is actually outstanding (`acked < sent`); every other event is
unconstrained. -/
def eventGuard (c : Conn) : ConnEvent → Bool
  | ConnEvent.recv _ ShardMsg.heartbeat_ack =>
      c.heartbeats_acked < c.heartbeats_sent
  | _ => true

/-- A trace of events is admissible from `c` when every `HEARTBEAT_ACK` in
it satisfies `eventGuard` in the state where it is handled. -/
def admissible : Conn → List ConnEvent → Bool
  | _, [] => true
  | c, ev :: evs => eventGuard c ev && admissible (applyEvent c ev) evs

/-! ### Audio send path (`snakecord/audio/send.py`) -/

/-- Big-endian byte string of fixed length, the digits of `n` base 256
(least significant byte last). -/
def bytesBE : ℕ → ℕ → List ℕ
  | _, 0 => []
  | n, len + 1 => bytesBE (n / 256) len ++ [n % 256]

/-- Read a big-endian byte string back as a natural number. -/
def fromBytesBE (l : List ℕ) : ℕ :=
  l.foldl (fun a b => a * 256 + b) 0

/-- Python `n.to_bytes(len, 'big', signed=False)`: the big-endian bytes when
`n` fits in `len` bytes, undefined (`OverflowError`) otherwise. -/
def pyToBytes (n len : ℕ) : Option (List ℕ) :=
  if n < 2 ^ (8 * len) then some (bytesBE n len) else none

/-- `AudioPlayer.make_header` (send.py lines 53–62): a 12-byte buffer with
marker byte `0x80`, payload-type byte `0x78`, then the sequence as a
big-endian `u16`, the timestamp as a big-endian `u32` and the connection's
ssrc as a big-endian `u32`. Undefined when a field overflows its slice
(Python `to_bytes` raises). -/
def make_header (sequence timestamp ssrc : ℕ) : Option (List ℕ) :=
  match pyToBytes sequence 2, pyToBytes timestamp 4, pyToBytes ssrc 4 with
  | some sb, some tb, some zb => some ([0x80, 0x78] ++ sb ++ tb ++ zb)
  | _, _, _ => none

/-- The per-frame counters of `AudioPlayer` (send.py lines 47–49), all
starting at `0`. -/
structure AudioPlayerState where
  sequence : ℕ
  timestamp : ℕ
  page_index : ℕ
deriving DecidableEq

/-- The counters at the start of playback. -/
def initPlayerState : AudioPlayerState :=
  { sequence := 0, timestamp := 0, page_index := 0 }

/-- `AudioPlayer.increment` (send.py lines 75–85): `sequence += 1`;
`timestamp += (48000 // 100) * 2`; each counter is reset to `0` when it has
reached its power-of-two bound; `page_index += 1`. -/
def increment (s : AudioPlayerState) : AudioPlayerState :=
  let sequence := s.sequence + 1
  let timestamp := s.timestamp + 48000 / 100 * 2
  { sequence := if 2 ^ 16 ≤ sequence then 0 else sequence
    timestamp := if 2 ^ 32 ≤ timestamp then 0 else timestamp
    page_index := s.page_index + 1 }

/-- `AudioPlayer.encrypt` (send.py lines 64–73): build the header from the
current counters; when the connection's mode is the supported
`xsalsa20_poly1305`, form a 24-byte nonce whose first 12 bytes are the
header (rest zero), encrypt the frame under it with the session's secret
box (modelled as an opaque ciphertext function of data and nonce) and
return header ‖ ciphertext; for any other mode the function body falls
through and returns `None`. -/
def encrypt (mode : String) (secret_box : List ℕ → List ℕ → List ℕ)
    (ssrc : ℕ) (s : AudioPlayerState) (data : List ℕ) : Option (List ℕ) :=
  (make_header s.sequence s.timestamp ssrc).bind (fun header =>
    if mode = "xsalsa20_poly1305" then
      let nonce := header ++ List.replicate 12 0
      some (header ++ secret_box data nonce)
    else
      none)

/-- The frame loop of `AudioPlayer.start` (send.py lines 92–103), projected
onto what is passed to `self.connection.transport.sendto` each iteration:
for every frame of the stream the loop calls `encrypt` on the current
counters and hands its result (possibly `None`) to the transport, then
advances the counters with `increment`. No configuration check precedes the
loop. -/
def processFrames (mode : String) (secret_box : List ℕ → List ℕ → List ℕ)
    (ssrc : ℕ) : AudioPlayerState → List (List ℕ) → List (Option (List ℕ))
  | _, [] => []
  | s, f :: fs =>
      encrypt mode secret_box ssrc s f ::
        processFrames mode secret_box ssrc (increment s) fs

/-- Modelled from the spec: `OggPage` (in `snakecord/audio/packets.py`) is
not among the provided sources; `spec.md` §4.3 fixes the frame duration at
20 ms, so `OggPage.DURATION` is 20/1000 seconds. -/
def OggPage_DURATION : ℚ := 20 / 1000

/-- `AudioPlayer.expected_elapsed` (send.py lines 105–107):
`OggPage.DURATION * self.page_index`. -/
def expected_elapsed (page_index : ℕ) : ℚ :=
  OggPage_DURATION * page_index

/-- The sleep computed after sending a frame (send.py lines 98–101):
`expected_time = started_at + expected_elapsed`; `offset = expected_time -
perf_counter()`; `delay = offset + OggPage.DURATION`. `page_index` is still
the pre-increment value because `increment` runs after the sleep. -/
def frameDelay (started_at now : ℚ) (page_index : ℕ) : ℚ :=
  let expected_time := started_at + expected_elapsed page_index
  let offset := expected_time - now
  offset + OggPage_DURATION

/-! ### Concrete states used by counterexamples and witnesses -/

/-- A connection that is due immediately: interval negotiated, no heartbeat
sent yet, so `calcbeat` returns `0`. -/
def connDue : Conn :=
  { heartbeats_sent := 0
    heartbeats_acked := 0
    heartbeat_interval := ExtQ.fin 1
    heartbeat_last_sent := ExtQ.inf
    heartbeat_last_acked := ExtQ.inf }

/-- A connection whose next beat at clock reading `10` is `3` (due soon):
one heartbeat sent and acked at time `0`, interval `13`. -/
def connSoon : Conn :=
  { heartbeats_sent := 1
    heartbeats_acked := 1
    heartbeat_interval := ExtQ.fin 13
    heartbeat_last_sent := ExtQ.fin 0
    heartbeat_last_acked := ExtQ.fin 0 }

/-- A connection whose next beat at clock reading `10` is `-5` (overdue):
one heartbeat sent and acked at time `0`, interval `5`. -/
def connLate : Conn :=
  { heartbeats_sent := 1
    heartbeats_acked := 1
    heartbeat_interval := ExtQ.fin 5
    heartbeat_last_sent := ExtQ.fin 0
    heartbeat_last_acked := ExtQ.fin 0 }

/-- A manager with an empty registry and an empty notification channel. -/
def mgr0 : ManagerState :=
  { connections := [], pending := [] }

/-! ### Helper lemmas about the worker cycle -/

/-- A defined `calcbeat` implies no ack is outstanding: the second guard of
`calcbeat` returns `None` whenever `heartbeats_sent != heartbeats_acked`. -/
theorem calcbeat_sent_eq_acked {c : Conn} {now : ℚ} {nb : ExtQ}
    (h : calcbeat c now = some nb) :
    c.heartbeats_sent = c.heartbeats_acked := by
  by_cases h1 : c.heartbeat_interval = ExtQ.inf
  · simp [calcbeat, h1] at h
  · by_cases h2 : c.heartbeats_sent = c.heartbeats_acked
    · exact h2
    · simp [calcbeat, h1, h2] at h

/-- The `wlist` component of the cycle fold ignores the timeout accumulator
and appends exactly the descriptors collected by `wlistOf`. -/
theorem foldl_cycleStep_wlist (now : ℚ) (conns : List (ℕ × Conn)) :
    ∀ acc : List ℕ × Option ExtQ,
      (conns.foldl (cycleStep now) acc).1 = acc.1 ++ wlistOf conns now := by
  induction conns with
  | nil => intro acc; simp [wlistOf]
  | cons p ps ih =>
    intro acc
    rw [List.foldl_cons, ih]
    cases h : calcbeat p.2 now with
    | none => simp [cycleStep, h, wlistOf]
    | some nb =>
      by_cases hle : nb.le (ExtQ.fin 0) = true
      · simp [cycleStep, h, hle, wlistOf]
      · simp [cycleStep, h, hle, wlistOf]

/-- The write set of a cycle is `wlistOf`. -/
theorem computeCycle_wlist (conns : List (ℕ × Conn)) (now : ℚ) :
    (computeCycle conns now).1 = wlistOf conns now := by
  simpa [computeCycle] using foldl_cycleStep_wlist now conns ([], none)

/-- Membership in `wlistOf`: exactly the registered connections whose
`calcbeat` is defined and `≤ 0`. -/
theorem mem_wlistOf {fd : ℕ} {conns : List (ℕ × Conn)} {now : ℚ} :
    fd ∈ wlistOf conns now ↔
      ∃ c nb, (fd, c) ∈ conns ∧ calcbeat c now = some nb ∧
        nb.le (ExtQ.fin 0) = true := by
  constructor
  · intro hmem
    rcases List.mem_filterMap.mp hmem with ⟨⟨fd', c⟩, hp, hf⟩
    cases hsome : calcbeat c now with
    | none => simp [hsome] at hf
    | some nb =>
      by_cases hle : nb.le (ExtQ.fin 0) = true
      · simp [hsome, hle] at hf
        exact ⟨c, nb, hf ▸ hp, hsome, hle⟩
      · simp [hsome, hle] at hf
  · rintro ⟨c, nb, hmem, hcb, hle⟩
    exact List.mem_filterMap.mpr ⟨(fd, c), hmem, by simp [hcb, hle]⟩

/-- Python dict lookup on a registry with pairwise-distinct descriptors
finds the registered connection. -/
theorem findConn_eq_of_nodup :
    ∀ {conns : List (ℕ × Conn)}, (conns.map Prod.fst).Nodup →
      ∀ {fd : ℕ} {c : Conn}, (fd, c) ∈ conns → findConn fd conns = some c := by
  intro conns
  induction conns with
  | nil => intro _ fd c h; cases h
  | cons p ps ih =>
    intro hnd fd c hmem
    rw [List.map_cons, List.nodup_cons] at hnd
    rcases List.mem_cons.mp hmem with heq | htail
    · subst heq
      simp [findConn, List.find?_cons_of_pos]
    · have hne : ¬(p.1 = fd) := by
        intro he
        exact hnd.1 (he ▸ List.mem_map.mpr ⟨(fd, c), htail, rfl⟩)
      unfold findConn
      rw [List.find?_cons_of_neg _ (by simpa using hne)]
      exact ih hnd.2 htail

/-- A successful dict lookup returns a registered pair. -/
theorem findConn_mem {fd : ℕ} {conns : List (ℕ × Conn)} {c : Conn}
    (h : findConn fd conns = some c) : (fd, c) ∈ conns := by
  unfold findConn at h
  cases hf : conns.find? (fun p => p.1 = fd) with
  | none => rw [hf] at h; cases h
  | some p =>
    rw [hf] at h
    have hp := List.find?_some hf
    have hmem := List.mem_of_find?_eq_some hf
    obtain rfl : p.2 = c := by injection h
    have : p.1 = fd := by simpa using hp
    rw [← this]
    simpa using hmem

/-- Membership in the fired set: `(fd, c)` is fired exactly when `select`
reported `fd` write-ready and the registry maps `fd` to `c`. -/
theorem mem_firedPairs {conns : List (ℕ × Conn)} {wready : List ℕ}
    {fd : ℕ} {c : Conn} :
    (fd, c) ∈ firedPairs conns wready ↔
      fd ∈ wready ∧ findConn fd conns = some c := by
  constructor
  · intro hmem
    rcases List.mem_filterMap.mp hmem with ⟨fd', hfd', hf⟩
    cases hfc : findConn fd' conns with
    | none => simp [hfc] at hf
    | some c' =>
      simp only [hfc, Option.map_some', Option.some.injEq, Prod.mk.injEq] at hf
      obtain ⟨rfl, rfl⟩ := hf
      exact ⟨hfd', hfc⟩
  · rintro ⟨hfd, hfc⟩
    exact List.mem_filterMap.mpr ⟨fd, hfd, by simp [hfc]⟩

/-! ### Claim theorems -/

/-- C1: in any worker cycle — whatever connection states the preceding
interval/ack updates produced — every connection on which the worker
invokes `send_heartbeat` has `heartbeats_sent = heartbeats_acked`: a
connection with an outstanding ack has `calcbeat = none`, so its descriptor
never enters the write set handed to `select`, and only descriptors of that
write set can be reported write-ready and fired. Quantifying over all
registry states covers every reachable state of the loop. -/
theorem worker_never_fires_unacked
    (conns : List (ℕ × Conn)) (now : ℚ) (wready : List ℕ)
    (hnd : (conns.map Prod.fst).Nodup)
    (hsub : ∀ fd, fd ∈ wready → fd ∈ (computeCycle conns now).1)
    (fd : ℕ) (c : Conn) (hmem : (fd, c) ∈ firedPairs conns wready) :
    c.heartbeats_sent = c.heartbeats_acked := by
  obtain ⟨hfd, hfc⟩ := mem_firedPairs.mp hmem
  have hwl : fd ∈ wlistOf conns now := by
    rw [← computeCycle_wlist]; exact hsub fd hfd
  obtain ⟨c2, nb, hmem2, hcb, _⟩ := mem_wlistOf.mp hwl
  have : findConn fd conns = some c2 := findConn_eq_of_nodup hnd hmem2
  rw [hfc] at this
  obtain rfl : c = c2 := by injection this
  exact calcbeat_sent_eq_acked hcb

/-- Witness for C1 at a concrete cycle: a single registered connection that
is due immediately, reported write-ready and fired. -/
theorem worker_never_fires_unacked_witness :
    (3, connDue) ∈ firedPairs [(3, connDue)] [3] ∧
    connDue.heartbeats_sent = connDue.heartbeats_acked :=
  ⟨by decide,
   worker_never_fires_unacked [(3, connDue)] 0 [3] (by decide)
     (by decide) 3 connDue (by decide)⟩

/-- C2 counterexample: a cycle in which the sole registered connection is
due (`calcbeat = 0 ≤ 0`, so its descriptor is in the write set) but
`select` reports no descriptor write-ready; the firing loop iterates over
the returned `wready` list, so `send_heartbeat` is invoked on nothing —
membership in the fired set does depend on the reported I/O readiness,
contrary to the claim. -/
theorem fired_depends_on_wready_counterexample :
    calcbeat connDue 0 = some (ExtQ.fin 0) ∧
    (computeCycle [(5, connDue)] 0).1 = [5] ∧
    firedPairs [(5, connDue)] [] = [] := by
  decide

/-- C2 amended: the step-1 deadline computation determines the write set
handed to `select` (a descriptor is in it exactly when its connection's
`calcbeat` is defined and `≤ 0`), and the connections actually fired in the
cycle are exactly those of the registry whose descriptor `select` reported
write-ready — firing is the intersection of the step-1 set with the
reported readiness, not the step-1 set alone. -/
theorem fired_iff_deadline_and_wready
    (conns : List (ℕ × Conn)) (now : ℚ) (wready : List ℕ)
    (fd : ℕ) (c : Conn) (hnd : (conns.map Prod.fst).Nodup) :
    ((fd, c) ∈ firedPairs conns wready ↔ fd ∈ wready ∧ (fd, c) ∈ conns) ∧
    (fd ∈ (computeCycle conns now).1 ↔
      ∃ c2 nb, (fd, c2) ∈ conns ∧ calcbeat c2 now = some nb ∧
        nb.le (ExtQ.fin 0) = true) := by
  constructor
  · rw [mem_firedPairs]
    constructor
    · rintro ⟨hfd, hfc⟩
      exact ⟨hfd, findConn_mem hfc⟩
    · rintro ⟨hfd, hmem⟩
      exact ⟨hfd, findConn_eq_of_nodup hnd hmem⟩
  · rw [computeCycle_wlist]
    constructor
    · intro h
      obtain ⟨c2, nb, hm, hcb, hle⟩ := mem_wlistOf.mp h
      exact ⟨c2, nb, hm, hcb, hle⟩
    · rintro ⟨c2, nb, hm, hcb, hle⟩
      exact mem_wlistOf.mpr ⟨c2, nb, hm, hcb, hle⟩

/-- Witness for the amended C2 at a concrete cycle. -/
theorem fired_iff_deadline_and_wready_witness :
    ((5, connDue) ∈ firedPairs [(5, connDue)] [5] ↔
      5 ∈ [5] ∧ (5, connDue) ∈ [(5, connDue)]) ∧
    (5 ∈ (computeCycle [(5, connDue)] 0).1 ↔
      ∃ c2 nb, (5, c2) ∈ [(5, connDue)] ∧ calcbeat c2 0 = some nb ∧
        nb.le (ExtQ.fin 0) = true) :=
  fired_iff_deadline_and_wready [(5, connDue)] 0 [5] 5 connDue (by decide)

/-- The timeout component of the cycle fold ignores the `wlist` accumulator
and folds `timeoutStep` over the defined next beats in registry order. -/
theorem foldl_cycleStep_timeout (now : ℚ) (conns : List (ℕ × Conn)) :
    ∀ acc : List ℕ × Option ExtQ,
      (conns.foldl (cycleStep now) acc).2 =
        (conns.filterMap (fun p => calcbeat p.2 now)).foldl timeoutStep acc.2 := by
  induction conns with
  | nil => intro acc; simp
  | cons p ps ih =>
    intro acc
    rw [List.foldl_cons, ih]
    cases h : calcbeat p.2 now with
    | none => simp [cycleStep, h]
    | some nb => simp [cycleStep, h]

/-- `abs(x)` is nonnegative. -/
theorem habs_nonneg (x : ExtQ) : (ExtQ.fin 0).le x.habs = true := by
  cases x with
  | inf => rfl
  | fin a => simp [ExtQ.habs, ExtQ.le, abs_nonneg a]

/-- `abs(x) = x` for nonnegative `x`. -/
theorem habs_of_nonneg {x : ExtQ} (h : (ExtQ.fin 0).le x = true) :
    x.habs = x := by
  cases x with
  | inf => rfl
  | fin a =>
    simp only [ExtQ.le, decide_eq_true_eq] at h
    simp [ExtQ.habs, abs_of_nonneg h]

/-- On nonnegative inputs with a nonnegative (or empty) accumulator, the
worker's timeout update agrees with the minimum-of-absolute-values update,
so the two folds coincide. -/
theorem foldl_timeoutStep_eq_specStep :
    ∀ (nbs : List ExtQ) (acc : Option ExtQ),
      (∀ nb, nb ∈ nbs → (ExtQ.fin 0).le nb = true) →
      (∀ t, acc = some t → (ExtQ.fin 0).le t = true) →
      nbs.foldl timeoutStep acc = nbs.foldl specStep acc := by
  intro nbs
  induction nbs with
  | nil => intro acc _ _; rfl
  | cons nb rest ih =>
    intro acc hnn hacc
    have hnb : (ExtQ.fin 0).le nb = true := hnn nb (List.mem_cons_self nb rest)
    have hstep : timeoutStep acc nb = specStep acc nb := by
      cases acc with
      | none => rfl
      | some t => simp [timeoutStep, specStep, habs_of_nonneg hnb]
    rw [List.foldl_cons, List.foldl_cons, hstep]
    refine ih (specStep acc nb) (fun x hx => hnn x (List.mem_cons_of_mem nb hx)) ?_
    intro t ht
    cases acc with
    | none =>
      simp only [specStep] at ht
      obtain rfl : nb.habs = t := by injection ht
      exact habs_nonneg nb
    | some t0 =>
      have ht0 : (ExtQ.fin 0).le t0 = true := hacc t0 rfl
      simp only [specStep] at ht
      by_cases hlt : nb.habs.lt t0 = true
      · rw [if_pos hlt] at ht
        obtain rfl : nb.habs = t := by injection ht
        exact habs_nonneg nb
      · rw [if_neg hlt] at ht
        obtain rfl : t0 = t := by injection ht
        exact ht0

/-- C3 counterexample: at clock reading `10`, the registry holds a
connection with next beat `3` followed by one overdue with next beat `-5`.
The fold first stores `3`, then — because the signed `-5` is compared with
the stored `3` — overwrites it with `abs(-5) = 5`. The spec's minimum of
`|nextBeat|` is `3`, so the computed timeout is not `min(|nextBeat|)` for
this ordering of the registry. -/
theorem timeout_not_min_abs_counterexample :
    calcbeat connSoon 10 = some (ExtQ.fin 3) ∧
    calcbeat connLate 10 = some (ExtQ.fin (-5)) ∧
    (computeCycle [(1, connSoon), (2, connLate)] 10).2 = some (ExtQ.fin 5) ∧
    specTimeout [(1, connSoon), (2, connLate)] 10 = some (ExtQ.fin 3) ∧
    some (ExtQ.fin 5) ≠ some (ExtQ.fin 3) := by
  refine ⟨?_, ?_, ?_, ?_, ?_⟩ <;>
    simp [calcbeat, connSoon, connLate, computeCycle, cycleStep, timeoutStep,
      specTimeout, specStep, ExtQ.add, ExtQ.sub, ExtQ.le, ExtQ.lt,
      ExtQ.habs] <;> norm_num

/-- C3 amended: when every defined next beat is nonnegative (no connection
is overdue) the computed timeout equals the minimum of `|nextBeat|` over
the connections with a defined next beat, in every ordering of the
registry; in particular, when no connection has a defined next beat both
sides are `None` and the wait is unbounded. (When some next beat is
negative the computed value can exceed the minimum, because the code
compares the signed `next_beat` with the stored absolute value — see the
counterexample.) -/
theorem timeout_eq_min_abs_of_nonneg
    (conns : List (ℕ × Conn)) (now : ℚ)
    (h : conns.all (fun p => optNonneg (calcbeat p.2 now)) = true) :
    (computeCycle conns now).2 = specTimeout conns now := by
  have h2 : ∀ nb ∈ conns.filterMap (fun p => calcbeat p.2 now),
      (ExtQ.fin 0).le nb = true := by
    intro nb hnb
    rcases List.mem_filterMap.mp hnb with ⟨p, hp, hcb⟩
    have hall := List.all_eq_true.mp h p hp
    simpa [optNonneg, hcb] using hall
  rw [computeCycle, foldl_cycleStep_timeout, specTimeout]
  exact foldl_timeoutStep_eq_specStep _ none h2 (by intro t ht; cases ht)

/-- Witness for the amended C3 at a concrete cycle with one connection due
in `3` seconds. -/
theorem timeout_eq_min_abs_of_nonneg_witness :
    ([(1, connSoon)].all (fun p => optNonneg (calcbeat p.2 10)) = true) ∧
    (computeCycle [(1, connSoon)] 10).2 = specTimeout [(1, connSoon)] 10 := by
  have h : [(1, connSoon)].all (fun p => optNonneg (calcbeat p.2 10)) = true := by
    simp [calcbeat, connSoon, optNonneg, ExtQ.add, ExtQ.sub, ExtQ.le]
    norm_num
  exact ⟨h, timeout_eq_min_abs_of_nonneg [(1, connSoon)] 10 h⟩

/-- C4 counterexample: `create_connection` on a manager whose notification
channel is empty leaves the channel empty — no byte is written to the
worker's socketpair, so a worker blocked in `select` is not woken (contrast
`wakeup`, which does write a byte). Moreover the freshly registered
connection's `calcbeat` is `None` (its interval is still `inf`), so even
the next deadline computation would ignore it. -/
theorem register_does_not_wake_counterexample :
    (create_connection 7 mgr0).pending = [] ∧
    (wakeup mgr0).pending = [WorkerOpcode.WAKEUP] ∧
    calcbeat newConn 0 = none := by
  decide

/-- C4 amended: `create_connection` adds the new connection to the registry
but writes nothing to the worker's notification socketpair, so it does not
interrupt a blocked wait. The new connection's `heartbeat_interval` is
still `inf`, so `calcbeat` returns `None` for it and it is excluded from
any deadline computation until its `HELLO` arrives; the `HELLO` branch of
`ws_text_received` is what records the interval, calls `wakeup` (returned
boolean), and makes `calcbeat` defined (`0`, since no heartbeat has been
sent yet). -/
theorem register_effects (s : ManagerState) (fd : ℕ) (now ms : ℚ) :
    (create_connection fd s).pending = s.pending ∧
    (create_connection fd s).connections = s.connections ++ [(fd, newConn)] ∧
    calcbeat newConn now = none ∧
    (ws_text_received newConn now (ShardMsg.hello ms)).2 = true ∧
    calcbeat (ws_text_received newConn now (ShardMsg.hello ms)).1 now =
      some (ExtQ.fin 0) := by
  refine ⟨rfl, rfl, rfl, rfl, ?_⟩
  simp [ws_text_received, calcbeat, newConn]

/-- C5: the worker never observes a shutdown request. `shutdown()` writes
the byte `0x01`, but the drain loop compares the one-byte `bytes` object
returned by `recv(1)` with the integer enum member `WorkerOpcode.SHUTDOWN`;
in Python a `bytes` value never equals an `int`, so the comparison is
`False` and `shutting_down` stays `false` even after draining the shutdown
byte — the loop does not exit. -/
theorem shutdown_byte_never_sets_flag :
    drain (shutdownOp mgr0).pending false = false := by
  rfl

/-- After `k` frames the pre-increment `page_index` is `k`: `increment` is
the only mutation of `page_index` and adds `1`. -/
theorem page_index_iterate (k : ℕ) :
    (increment^[k] initPlayerState).page_index = k := by
  induction k with
  | zero => rfl
  | succ n ih =>
    rw [Function.iterate_succ_apply']
    simp [increment, ih]

/-- C6: the sleep computed after sending frame `k` is
`(startedAt + k * frameDuration - now) + frameDuration`, where `k` is the
pre-increment `page_index` (the 0-based count of frames already sent):
the schedule is anchored to the absolute start time, so per-frame
processing delay does not accumulate. In particular, with the 20 ms frame
duration, if frame 0's processing consumed 5 ms the computed sleep is
15 ms, not 20 ms. -/
theorem frame_delay_drift_corrected (T0 now : ℚ) (k : ℕ) :
    frameDelay T0 now (increment^[k] initPlayerState).page_index =
      (T0 + k * OggPage_DURATION - now) + OggPage_DURATION ∧
    frameDelay T0 (T0 + 5 / 1000) 0 = 15 / 1000 := by
  constructor
  · rw [page_index_iterate]
    simp [frameDelay, expected_elapsed]
    ring
  · simp [frameDelay, expected_elapsed, OggPage_DURATION]
    ring

/-- Length of a fixed-width big-endian byte string. -/
theorem bytesBE_length : ∀ (n len : ℕ), (bytesBE n len).length = len := by
  intro n len
  induction len generalizing n with
  | zero => rfl
  | succ m ih => simp [bytesBE, ih]

/-- Reading a fixed-width big-endian byte string back yields the value
modulo the width. -/
theorem fromBytesBE_bytesBE : ∀ (len n : ℕ),
    fromBytesBE (bytesBE n len) = n % 2 ^ (8 * len) := by
  intro len
  induction len with
  | zero => intro n; simp [bytesBE, fromBytesBE, Nat.mod_one]
  | succ m ih =>
    intro n
    have hsplit : fromBytesBE (bytesBE (n / 256) m ++ [n % 256]) =
        fromBytesBE (bytesBE (n / 256) m) * 256 + n % 256 := by
      simp [fromBytesBE, List.foldl_append]
    rw [bytesBE, hsplit, ih]
    have h256 : 2 ^ (8 * (m + 1)) = 256 * 2 ^ (8 * m) := by
      rw [Nat.mul_add, Nat.mul_one, Nat.pow_add]
      ring
    rw [h256, Nat.mod_mul]
    ring

/-- Take a known-length prefix off a concatenation. -/
theorem take_append_len {α : Type} (l1 l2 : List α) (n : ℕ)
    (h : l1.length = n) : (l1 ++ l2).take n = l1 := by
  rw [← h, List.take_left]

/-- Drop a known-length prefix off a concatenation. -/
theorem drop_append_len {α : Type} (l1 l2 : List α) (n : ℕ)
    (h : l1.length = n) : (l1 ++ l2).drop n = l2 := by
  rw [← h, List.drop_left]

/-- C7: for every session state within the wire-format ranges,
`make_header` yields exactly 12 bytes: byte 0 is the `0x80` marker, byte 1
the `0x78` payload type, bytes 2–3 the sequence as unsigned big-endian
`u16`, bytes 4–7 the timestamp as unsigned big-endian `u32`, bytes 8–11
the ssrc as unsigned big-endian `u32` (each field reads back to its value
through `fromBytesBE`). -/
theorem make_header_layout (sequence timestamp ssrc : ℕ)
    (h1 : sequence < 2 ^ 16) (h2 : timestamp < 2 ^ 32) (h3 : ssrc < 2 ^ 32) :
    ∃ l, make_header sequence timestamp ssrc = some l ∧
      l.length = 12 ∧
      l.take 2 = [0x80, 0x78] ∧
      fromBytesBE ((l.drop 2).take 2) = sequence ∧
      fromBytesBE ((l.drop 4).take 4) = timestamp ∧
      fromBytesBE (l.drop 8) = ssrc := by
  have hsb : (bytesBE sequence 2).length = 2 := bytesBE_length sequence 2
  have htb : (bytesBE timestamp 4).length = 4 := bytesBE_length timestamp 4
  have hzb : (bytesBE ssrc 4).length = 4 := bytesBE_length ssrc 4
  have hs : pyToBytes sequence 2 = some (bytesBE sequence 2) := by
    unfold pyToBytes; exact if_pos h1
  have ht : pyToBytes timestamp 4 = some (bytesBE timestamp 4) := by
    unfold pyToBytes; exact if_pos h2
  have hz : pyToBytes ssrc 4 = some (bytesBE ssrc 4) := by
    unfold pyToBytes; exact if_pos h3
  refine ⟨[0x80, 0x78] ++ bytesBE sequence 2 ++ bytesBE timestamp 4 ++
      bytesBE ssrc 4, ?_, ?_, ?_, ?_, ?_, ?_⟩
  · simp only [make_header, hs, ht, hz]
  · simp [hsb, htb, hzb]
  · rw [List.append_assoc, List.append_assoc]
    exact take_append_len _ _ 2 rfl
  · rw [List.append_assoc, List.append_assoc,
      drop_append_len ([0x80, 0x78] : List ℕ) _ 2 rfl,
      take_append_len _ _ 2 hsb, fromBytesBE_bytesBE]
    exact Nat.mod_eq_of_lt h1
  · rw [List.append_assoc ([0x80, 0x78] ++ bytesBE sequence 2),
      drop_append_len _ _ 4 (by simp [hsb]),
      take_append_len _ _ 4 htb, fromBytesBE_bytesBE]
    exact Nat.mod_eq_of_lt h2
  · rw [drop_append_len _ _ 8 (by simp [hsb, htb]), fromBytesBE_bytesBE]
    exact Nat.mod_eq_of_lt h3

/-- Witness for C7 at the spec's concrete example: `sequence = 1`,
`timestamp = 960`, `ssrc = 0xAABBCCDD` gives the header
`80 78 00 01 00 00 03 C0 AA BB CC DD`. -/
theorem make_header_layout_witness :
    make_header 1 960 0xAABBCCDD =
      some [0x80, 0x78, 0x00, 0x01, 0x00, 0x00, 0x03, 0xC0,
            0xAA, 0xBB, 0xCC, 0xDD] ∧
    (∃ l, make_header 1 960 0xAABBCCDD = some l ∧
      l.length = 12 ∧
      l.take 2 = [0x80, 0x78] ∧
      fromBytesBE ((l.drop 2).take 2) = 1 ∧
      fromBytesBE ((l.drop 4).take 4) = 960 ∧
      fromBytesBE (l.drop 8) = 0xAABBCCDD) :=
  ⟨by decide,
   make_header_layout 1 960 0xAABBCCDD (by decide) (by decide) (by decide)⟩

/-- The sequence counter stays below `2^16` after `increment`. -/
theorem increment_sequence_lt (s : AudioPlayerState) :
    (increment s).sequence < 2 ^ 16 := by
  simp only [increment]
  split <;> omega

/-- On in-range states the sequence update is addition modulo `2^16`,
because the step is exactly `1`. -/
theorem increment_sequence_mod (s : AudioPlayerState)
    (h : s.sequence < 2 ^ 16) :
    (increment s).sequence = (s.sequence + 1) % 2 ^ 16 := by
  simp only [increment]
  split <;> omega

/-- Iterating `increment` adds the iteration count to the sequence
modulo `2^16`. -/
theorem iterate_increment_sequence (k : ℕ) :
    ∀ s : AudioPlayerState, s.sequence < 2 ^ 16 →
      (increment^[k] s).sequence = (s.sequence + k) % 2 ^ 16 := by
  induction k with
  | zero => intro s h; simp only [Function.iterate_zero, id_eq]; omega
  | succ n ih =>
    intro s h
    rw [Function.iterate_succ_apply, ih (increment s) (increment_sequence_lt s),
      increment_sequence_mod s h, Nat.mod_add_mod]
    congr 1
    omega

/-- C8 counterexample: on the in-range state with `timestamp = 2^32 - 1`
the code resets the timestamp to `0`, while
`(timestamp + 960) mod 2^32 = 959`: the overflow branch zeroes the counter
instead of taking the remainder, so the claimed modular update is wrong for
timestamps within `960` of the bound. -/
theorem increment_timestamp_not_mod_counterexample :
    (increment ⟨0, 2 ^ 32 - 1, 0⟩).timestamp = 0 ∧
    (2 ^ 32 - 1 + 960) % 2 ^ 32 = 959 ∧
    (0 : ℕ) ≠ 959 := by
  refine ⟨by decide, by decide, by decide⟩

/-- C8 amended: on every state with `sequence < 2^16`, one `increment`
advances `sequence` to `(sequence + 1) mod 2^16` (the step is `1`, so reset
and remainder agree), advances `timestamp` by the fixed per-frame delta
`960 = (48000 // 100) * 2` — resetting to `0` (not to the remainder) when
the sum reaches `2^32` — and increases `page_index` by one; consequently
after `65536` frames the sequence has returned to its starting value. -/
theorem increment_spec (s : AudioPlayerState) (h : s.sequence < 2 ^ 16) :
    (increment s).sequence = (s.sequence + 1) % 2 ^ 16 ∧
    (increment s).timestamp =
      (if s.timestamp + 960 < 2 ^ 32 then s.timestamp + 960 else 0) ∧
    (increment s).page_index = s.page_index + 1 ∧
    (increment^[65536] s).sequence = s.sequence := by
  refine ⟨increment_sequence_mod s h, ?_, by simp [increment], ?_⟩
  · simp only [increment]
    have h960 : 48000 / 100 * 2 = 960 := by norm_num
    rw [h960]
    by_cases hc : 2 ^ 32 ≤ s.timestamp + 960
    · rw [if_pos hc, if_neg (by omega)]
    · rw [if_neg hc, if_pos (by omega)]
  · rw [iterate_increment_sequence 65536 s h]
    have h16 : (2 : ℕ) ^ 16 = 65536 := by norm_num
    rw [h16] at h ⊢
    omega

/-- Witness for the amended C8 at a concrete in-range state. -/
theorem increment_spec_witness :
    (⟨5, 100, 3⟩ : AudioPlayerState).sequence < 2 ^ 16 ∧
    ((increment ⟨5, 100, 3⟩).sequence =
        ((⟨5, 100, 3⟩ : AudioPlayerState).sequence + 1) % 2 ^ 16 ∧
      (increment ⟨5, 100, 3⟩).timestamp =
        (if (⟨5, 100, 3⟩ : AudioPlayerState).timestamp + 960 < 2 ^ 32
          then (⟨5, 100, 3⟩ : AudioPlayerState).timestamp + 960 else 0) ∧
      (increment ⟨5, 100, 3⟩).page_index =
        (⟨5, 100, 3⟩ : AudioPlayerState).page_index + 1 ∧
      (increment^[65536] ⟨5, 100, 3⟩).sequence =
        (⟨5, 100, 3⟩ : AudioPlayerState).sequence) :=
  ⟨by decide, increment_spec ⟨5, 100, 3⟩ (by decide)⟩

/-- C9 counterexample: the `HEARTBEAT_ACK` branch increments
`heartbeats_acked` unconditionally, so a spurious ack received in the
initial state (no heartbeat ever sent) drives the counters to
`acked = 1 > sent = 0`: the invariant `acked ≤ sent` is not preserved by
every sequence of inbound opcode messages. -/
theorem ack_breaks_invariant_counterexample :
    counterInv newConn ∧
    ¬ counterInv (applyEvent newConn (ConnEvent.recv 0 ShardMsg.heartbeat_ack)) := by
  refine ⟨by decide, by decide⟩

/-- C9 amended: `acked ≤ sent` holds initially and is preserved by
`send_heartbeat` and by every inbound message branch except an unsolicited
`HEARTBEAT_ACK`; under the environment assumption that each `HEARTBEAT_ACK`
arrives only while an ack is outstanding (`acked < sent`, as a real gateway
acks only sent heartbeats), the invariant holds after every admissible
event trace. -/
theorem counter_invariant_preserved (c : Conn) (evs : List ConnEvent)
    (hc : counterInv c) (hadm : admissible c evs = true) :
    counterInv (runEvents c evs) := by
  induction evs generalizing c with
  | nil => exact hc
  | cons ev rest ih =>
    rw [admissible, Bool.and_eq_true] at hadm
    obtain ⟨hg, hrest⟩ := hadm
    have hstep : counterInv (applyEvent c ev) := by
      cases ev with
      | worker_send now =>
        simp only [applyEvent, send_heartbeat, counterInv] at hc ⊢
        omega
      | recv now m =>
        cases m with
        | dispatch => exact hc
        | hello ms => exact hc
        | heartbeat =>
          simp only [applyEvent, ws_text_received, send_heartbeat,
            counterInv] at hc ⊢
          omega
        | heartbeat_ack =>
          simp only [eventGuard, decide_eq_true_eq] at hg
          simp only [applyEvent, ws_text_received, counterInv]
          omega
        | other => exact hc
    exact ih (applyEvent c ev) hstep hrest

/-- Witness for the amended C9: one heartbeat sent by the worker, then one
ack — an admissible trace ending with `acked = sent = 1`. -/
theorem counter_invariant_preserved_witness :
    counterInv newConn ∧
    admissible newConn
      [ConnEvent.worker_send 0, ConnEvent.recv 1 ShardMsg.heartbeat_ack] = true ∧
    counterInv (runEvents newConn
      [ConnEvent.worker_send 0, ConnEvent.recv 1 ShardMsg.heartbeat_ack]) :=
  ⟨by decide, by decide,
   counter_invariant_preserved newConn
     [ConnEvent.worker_send 0, ConnEvent.recv 1 ShardMsg.heartbeat_ack]
     (by decide) (by decide)⟩

/-- The timestamp stays below `2^32` after `increment`. -/
theorem increment_timestamp_lt (s : AudioPlayerState) :
    (increment s).timestamp < 2 ^ 32 := by
  simp only [increment]
  split <;> omega

/-- On in-range counters, `encrypt` under an unsupported mode builds the
header, fails the mode test and falls through to `None`. -/
theorem encrypt_unsupported (mode : String)
    (secret_box : List ℕ → List ℕ → List ℕ) (ssrc : ℕ)
    (s : AudioPlayerState) (data : List ℕ)
    (hm : mode ≠ "xsalsa20_poly1305") (h1 : s.sequence < 2 ^ 16)
    (h2 : s.timestamp < 2 ^ 32) (hs : ssrc < 2 ^ 32) :
    encrypt mode secret_box ssrc s data = none := by
  have hsb : pyToBytes s.sequence 2 = some (bytesBE s.sequence 2) := by
    unfold pyToBytes; exact if_pos h1
  have htb : pyToBytes s.timestamp 4 = some (bytesBE s.timestamp 4) := by
    unfold pyToBytes; exact if_pos h2
  have hzb : pyToBytes ssrc 4 = some (bytesBE ssrc 4) := by
    unfold pyToBytes; exact if_pos hs
  simp only [encrypt, make_header, hsb, htb, hzb, Option.some_bind]
  rw [if_neg hm]

/-- On in-range counters, `encrypt` under the supported mode returns a
packet (header ‖ ciphertext), never `None`. -/
theorem encrypt_supported_isSome
    (secret_box : List ℕ → List ℕ → List ℕ) (ssrc : ℕ)
    (s : AudioPlayerState) (data : List ℕ)
    (h1 : s.sequence < 2 ^ 16) (h2 : s.timestamp < 2 ^ 32)
    (hs : ssrc < 2 ^ 32) :
    (encrypt "xsalsa20_poly1305" secret_box ssrc s data).isSome = true := by
  have hsb : pyToBytes s.sequence 2 = some (bytesBE s.sequence 2) := by
    unfold pyToBytes; exact if_pos h1
  have htb : pyToBytes s.timestamp 4 = some (bytesBE s.timestamp 4) := by
    unfold pyToBytes; exact if_pos h2
  have hzb : pyToBytes ssrc 4 = some (bytesBE ssrc 4) := by
    unfold pyToBytes; exact if_pos hs
  simp [encrypt, make_header, hsb, htb, hzb]

/-- C10 counterexample: with an unsupported mode configured, playback does
not fail at session start — the loop still processes the first frame, and
`encrypt` returns `None` for it (which is what gets handed to the
transport write). So the failure is a per-frame `None`, not a
configuration error raised once before any frame is processed. -/
theorem unsupported_mode_no_start_error_counterexample :
    processFrames "aead_aes256_gcm" (fun d _ => d) 0 initPlayerState
      [[1, 2, 3]] = [none] ∧
    encrypt "aead_aes256_gcm" (fun d _ => d) 0 initPlayerState [1, 2, 3] =
      none := by
  refine ⟨by decide, by decide⟩

/-- C10 amended: `AudioPlayer.start` performs no mode check before its
frame loop. With an unsupported mode, every frame of the stream is still
processed and `encrypt` yields `None` for each one (the failure surfaces at
each per-packet transport write, not once at session start); with the
supported `xsalsa20_poly1305` mode, `encrypt` yields a packet for every
frame and no per-packet error path is taken. -/
theorem encrypt_mode_dispatch
    (mode : String) (secret_box : List ℕ → List ℕ → List ℕ) (ssrc : ℕ)
    (s : AudioPlayerState) (frames : List (List ℕ))
    (hs : ssrc < 2 ^ 32) (h1 : s.sequence < 2 ^ 16)
    (h2 : s.timestamp < 2 ^ 32) :
    (mode ≠ "xsalsa20_poly1305" →
      processFrames mode secret_box ssrc s frames =
        frames.map (fun _ => none)) ∧
    (processFrames "xsalsa20_poly1305" secret_box ssrc s frames).all
      (fun p => p.isSome) = true := by
  induction frames generalizing s with
  | nil => exact ⟨fun _ => rfl, rfl⟩
  | cons f fs ih =>
    obtain ⟨ihu, ihs⟩ :=
      ih (increment s) (increment_sequence_lt s) (increment_timestamp_lt s)
    constructor
    · intro hm
      simp only [processFrames, List.map_cons]
      rw [encrypt_unsupported mode secret_box ssrc s f hm h1 h2 hs, ihu hm]
    · simp only [processFrames, List.all_cons, Bool.and_eq_true]
      exact ⟨encrypt_supported_isSome secret_box ssrc s f h1 h2 hs, ihs⟩

/-- Witness for the amended C10 at a concrete session. -/
theorem encrypt_mode_dispatch_witness :
    (0 : ℕ) < 2 ^ 32 ∧
    initPlayerState.sequence < 2 ^ 16 ∧
    initPlayerState.timestamp < 2 ^ 32 ∧
    (("aead_aes256_gcm" : String) ≠ "xsalsa20_poly1305" →
      processFrames "aead_aes256_gcm" (fun d _ => d) 0 initPlayerState
        [[1, 2, 3]] = [[1, 2, 3]].map (fun _ => none)) ∧
    (processFrames "xsalsa20_poly1305" (fun d _ => d) 0 initPlayerState
      [[1, 2, 3]]).all (fun p => p.isSome) = true :=
  ⟨by decide, by decide, by decide,
   (encrypt_mode_dispatch "aead_aes256_gcm" (fun d _ => d) 0 initPlayerState
     [[1, 2, 3]] (by decide) (by decide) (by decide)).1,
   (encrypt_mode_dispatch "xsalsa20_poly1305" (fun d _ => d) 0 initPlayerState
     [[1, 2, 3]] (by decide) (by decide) (by decide)).2⟩

end Snakecord

